import Mathlib

/-!
A verification development for the Dell/Redfish sensor-normalization script
(`main.py`).  Python values flowing through the script are modelled by the
inductive type `JVal` (JSON-shaped values; Python `None` and JSON `null` are
both `JVal.null`).  Python dictionaries are modelled as insertion-ordered
association lists (`PyDict`), with `dget` / `dgetD` / `dset` mirroring
`dict.get(k)`, `dict.get(k, default)` and `dict[k] = v` (assignment keeps the
original position of an existing key, as CPython does).  Code that can raise
an exception is modelled in the `Except Unit` monad; code whose exceptions
are all caught internally (such as `parse_json`) is modelled as a plain total
function.

Model notes, where the embedding is deliberately coarser than CPython:
* numbers are modelled as `Int` (no floats are needed by any claim);
* `str.lower()` is modelled as ASCII lowercasing (`Char.toLower`);
* `int(s)` is modelled as an optional sign followed by decimal digits;
  CPython additionally strips whitespace and allows `_` separators, which no
  claim touches.
-/

/-- JSON-shaped runtime values.  `null` stands for both JSON `null` and
Python `None` (including "absent" results of `dict.get`). -/
inductive JVal where
  | null
  | bool (b : Bool)
  | num (n : Int)
  | str (s : String)
  | arr (xs : List JVal)
  | obj (fs : List (String × JVal))

/-- A Python dictionary with string keys, in insertion order. -/
abbrev PyDict := List (String × JVal)

/-- Python `d.get(k)`: first binding of `k`, if any. -/
def dget : PyDict → String → Option JVal
  | [], _ => none
  | (k, v) :: rest, key => if k = key then some v else dget rest key

/-- Python `d.get(k, dflt)`. -/
def dgetD (d : PyDict) (k : String) (dflt : JVal) : JVal :=
  (dget d k).getD dflt

/-- Python `d[k] = v`: overwrite the existing binding in place, else append. -/
def dset : PyDict → String → JVal → PyDict
  | [], k, v => [(k, v)]
  | (k0, v0) :: rest, k, v =>
      if k0 = k then (k, v) :: rest else (k0, v0) :: dset rest k v

/-- Python truthiness (`bool(x)`) on JSON-shaped values. -/
def truthy : JVal → Bool
  | .null => false
  | .bool b => b
  | .num n => n != 0
  | .str s => s != ""
  | .arr xs => !xs.isEmpty
  | .obj fs => !fs.isEmpty

/-- Whether a value is Python `None` (`current is None`). -/
def isNullB : JVal → Bool
  | .null => true
  | _ => false

/-- Whether a value is a Python `str` (`isinstance(v, str)`). -/
def isStrB : JVal → Bool
  | .str _ => true
  | _ => false

/-- The underlying string of a `str` value, `""` otherwise (only used under
hypotheses guaranteeing the value is a string). -/
def strOfD : JVal → String
  | .str s => s
  | _ => ""

/-- Prefix test on character lists (Python `s.startswith(pre)`). -/
def leadsWith : List Char → List Char → Bool
  | [], _ => true
  | _ :: _, [] => false
  | a :: as, b :: bs => a == b && leadsWith as bs

/-- Python substring test `pat in s` on character lists. -/
def containsSub (pat : List Char) : List Char → Bool
  | [] => leadsWith pat []
  | c :: rest => leadsWith pat (c :: rest) || containsSub pat rest

/-- Python `s.split(sep)` for a one-character separator: splits at every
occurrence, keeping empty pieces; the result is never empty. -/
def splitChars (sep : Char) : List Char → List (List Char)
  | [] => [[]]
  | c :: rest =>
      let r := splitChars sep rest
      if c = sep then [] :: r
      else
        match r with
        | [] => [[c]]
        | g :: gs => (c :: g) :: gs

/-- Python `s.split(sep)` on `String`. -/
def pysplit (s : String) (sep : Char) : List String :=
  (splitChars sep s.data).map String.mk

/-- Python `sep.join(parts)`. -/
def joinWith (sep : String) : List String → String
  | [] => ""
  | [s] => s
  | s :: rest => s ++ sep ++ joinWith sep rest

/-- Python `name.split(" ")[0]` — the split list is never empty, so `headD` with a
junk default is exact. -/
def firstToken (s : String) : String :=
  (pysplit s ' ').headD ""

/-- Python `s.lower()` (ASCII). -/
def pyLower (s : String) : String :=
  String.mk (s.data.map Char.toLower)

/-- Decimal digits to a number; fails on a non-digit. -/
def digitsVal : List Char → Nat → Option Nat
  | [], acc => some acc
  | c :: rest, acc =>
      if c.isDigit then digitsVal rest (acc * 10 + (c.toNat - 48)) else none

/-- Python `int(s)`: optional sign followed by at least one decimal digit. -/
def pyInt : List Char → Option Int
  | [] => none
  | '-' :: rest =>
      match rest with
      | [] => none
      | _ => (digitsVal rest 0).map (fun n => -(n : Int))
  | '+' :: rest =>
      match rest with
      | [] => none
      | _ => (digitsVal rest 0).map (fun n => (n : Int))
  | cs => (digitsVal cs 0).map (fun n => (n : Int))

/-- Python sequence indexing `xs[i]`: negative indices count from the end;
out-of-range indexing fails (`IndexError`). -/
def pyIndexL {α : Type} (xs : List α) (i : Int) : Option α :=
  let j : Int := if i < 0 then i + xs.length else i
  if 0 ≤ j then xs.get? j.toNat else none

/-- Split a character list at the first occurrence of `sep`
(Python `q.split(sep, 1)` when `sep` occurs). -/
def splitFirst (sep : Char) : List Char → (List Char × List Char)
  | [] => ([], [])
  | c :: rest =>
      if c = sep then ([], rest)
      else
        let r := splitFirst sep rest
        (c :: r.1, r.2)

/-- The bracket-segment test and split of `parse_json`
(`p.endswith("]") and "[" in p`, then `p[:-1].split("[", 1)`). -/
def segParse (p : String) : Option (String × String) :=
  let cs := p.data
  if cs.getLast? == some ']' && cs.contains '[' then
    let r := splitFirst '[' cs.dropLast
    some (String.mk r.1, String.mk r.2)
  else none

/-- One loop iteration of `Dell.parse_json` (main.py 118-144) on a non-`None`
current value: `none` models the caught-exception / explicit `return None`
paths; `some v` models `current = v; continue`.  In the bracketed branch the
source computes `current.get(key_part)` (an `AttributeError` unless `current`
is a dict), then `int(idx_part)`, then `current[idx]` (list or string
indexing; anything else, including `None`, raises and is caught). -/
def jsonStep (current : JVal) (p : String) : Option JVal :=
  match segParse p with
  | some kp =>
      match current with
      | .obj fs =>
          let c2 := dgetD fs kp.1 .null
          match pyInt kp.2.data with
          | none => none
          | some i =>
              match c2 with
              | .arr xs => pyIndexL xs i
              | .str s => (pyIndexL s.data i).map (fun c => .str (String.mk [c]))
              | _ => none
      | _ => none
  | none =>
      match current with
      | .obj fs => some (dgetD fs p .null)
      | .arr xs =>
          match pyInt p.data with
          | none => none
          | some i => pyIndexL xs i
      | _ => none

/-- The function `Dell.parse_json` (main.py 116-145).  The source catches every exception
inside the loop and returns `None`, so the model is a total function;
`JVal.null` is the "absent" result. -/
def parse_json (data : JVal) (path : List String) : JVal :=
  match path with
  | [] => data
  | p :: rest =>
      if isNullB data then .null
      else
        match jsonStep data p with
        | none => .null
        | some v => parse_json v rest

/-- The three shapes of the `keys` argument of `Dell.extract_data`:
a bare path string, a single `{name, path}` record, or a list of them. -/
inductive KeySpec where
  | strSpec (path : String)
  | dictSpec (name : String) (path : String)
  | listSpec (ks : List (String × String))

/-- The list branch of `Dell.extract_data` (main.py 96-106): builds
`return_buffer` by successive assignment; a `path == "@odata.id"` entry is a
direct `data.get(path)` (raising unless `data` is a dict), every other entry
goes through `parse_json(data, path.split("."))`. -/
def extract_list (data : JVal) : List (String × String) → PyDict → Except Unit PyDict
  | [], buf => .ok buf
  | (n, p) :: rest, buf =>
      if p = "@odata.id" then
        match data with
        | .obj fs => extract_list data rest (dset buf n (dgetD fs "@odata.id" .null))
        | _ => .error ()
      else extract_list data rest (dset buf n (parse_json data (pysplit p '.')))

/-- The function `Dell.extract_data` (main.py 88-114) on an already-parsed document (the
sensor pipeline always calls it with `skip_parse=True` or a pre-parsed dict;
the raw-text parsing branch is outside every claim). -/
def extract_data (data : JVal) (keys : KeySpec) : Except Unit JVal :=
  match keys with
  | .listSpec ks =>
      match extract_list data ks [] with
      | .error e => .error e
      | .ok buf => .ok (.obj buf)
  | .dictSpec n p => .ok (.obj [(n, parse_json data (pysplit p '.'))])
  | .strSpec p => .ok (parse_json data (pysplit p '.'))

/-- The classification buckets; `discard` models falling through every rule. -/
inductive Bucket where
  | fan
  | psu
  | temperature
  | sysBoard
  | discard
deriving DecidableEq

/-- Comparison `match v with str s => s == t`, i.e. Python `v == t` for a string
literal `t`. -/
def jvalIsStrV (v : JVal) (t : String) : Bool :=
  match v with
  | .str s => s == t
  | _ => false

/-- Python `opt == t` where `opt` is `parsed.get(k)` and `t` a string
literal: true only when the key is present with exactly that string. -/
def optIsStr (o : Option JVal) (t : String) : Bool :=
  match o with
  | some (.str s) => s == t
  | _ => false

/-- Python `isinstance(name, str) and name.startswith("PS")`. -/
def strPS (v : JVal) : Bool :=
  match v with
  | .str s => leadsWith "PS".data s.data
  | _ => false

/-- Python `isinstance(name, str) and pat in name`. -/
def strHas (v : JVal) (pat : String) : Bool :=
  match v with
  | .str s => containsSub pat.data s.data
  | _ => false

/-- The inline sensor classifier of `main` (main.py 316-336), as a pure
function of the extracted record: first match wins, a record matching no
rule is discarded. -/
def classify_sensor (r : PyDict) : Bucket :=
  let reading_type := dget r "type"
  let nm := dgetD r "name" (.str "")
  if strPS nm && optIsStr (dget r "context") "PowerSupply" then .psu
  else if optIsStr reading_type "Temperature" then .temperature
  else if strHas nm "Fan" && optIsStr reading_type "Rotational" then .fan
  else if strHas nm "System Board" && optIsStr reading_type "Percent" then .sysBoard
  else
    let ctx := dgetD r "context" (.str "")
    if jvalIsStrV ctx "PowerSupply" then .psu
    else if jvalIsStrV ctx "Chassis" then .sysBoard
    else .discard

/-- Modelled from the spec (§4.3): the classifier as the spec states it, a
first-match-wins cascade over the optional extracted fields `name`,
`context`, `type`.  Used only to compare against `classify_sensor`. -/
def classifySensorSpec (nm ctx ty : Option JVal) : Bucket :=
  if (match nm with | some (.str s) => leadsWith "PS".data s.data | _ => false)
      && (match ctx with | some (.str s) => s == "PowerSupply" | _ => false) then .psu
  else if (match ty with | some (.str s) => s == "Temperature" | _ => false) then .temperature
  else if (match nm with | some (.str s) => containsSub "Fan".data s.data | _ => false)
      && (match ty with | some (.str s) => s == "Rotational" | _ => false) then .fan
  else if (match nm with | some (.str s) => containsSub "System Board".data s.data | _ => false)
      && (match ty with | some (.str s) => s == "Percent" | _ => false) then .sysBoard
  else if (match ctx with | some (.str s) => s == "PowerSupply" | _ => false) then .psu
  else if (match ctx with | some (.str s) => s == "Chassis" | _ => false) then .sysBoard
  else .discard

/-- The `{"reading": obj.get("reading"), "health": obj.get("health")}`
payload built by `format_psu`. -/
def psuPayload (obj : PyDict) : JVal :=
  .obj [("reading", dgetD obj "reading" .null), ("health", dgetD obj "health" .null)]

/-- The inner `for b in buffer` loop of `format_psu` (main.py 159-162):
update the first record whose `"name"` value equals the token, then `break`;
`b["name"]` on a record without the key would raise (`KeyError`). -/
def updatePsu (w tl : String) (pay : JVal) : List PyDict → Except Unit (List PyDict)
  | [] => .ok []
  | b :: rest =>
      match dget b "name" with
      | none => .error ()
      | some v =>
          if jvalIsStrV v w then .ok (dset b tl pay :: rest)
          else
            match updatePsu w tl pay rest with
            | .error e => .error e
            | .ok r => .ok (b :: r)

/-- The loop of `format_psu` (main.py 150-162) with its two accumulators:
`found` (`found_power_supplies`) and `buffer`.  `obj.get("name","")` /
`obj.get("type","")` raise (`AttributeError` on `.split` / `.lower`) when
the value is present but not a string — modelled by `.error`. -/
def format_psu_go : List PyDict → List String → List PyDict → Except Unit (List PyDict)
  | [], _, buffer => .ok buffer
  | obj :: rest, found, buffer =>
      match dgetD obj "name" (.str "") with
      | .str nm =>
          let w := firstToken nm
          match dgetD obj "type" (.str "") with
          | .str ty =>
              let tl := pyLower ty
              let pay := psuPayload obj
              if found.contains w then
                match updatePsu w tl pay buffer with
                | .error e => .error e
                | .ok buffer2 => format_psu_go rest found buffer2
              else
                format_psu_go rest (found ++ [w])
                  (buffer ++ [dset (dset [] "name" (.str w)) tl pay])
          | _ => .error ()
      | _ => .error ()

/-- The function `format_psu` (main.py 147-163). -/
def format_psu (psu_obj : List PyDict) : Except Unit (List PyDict) :=
  format_psu_go psu_obj [] []

/-- Per-record body of `format_temp` (main.py 166-170): split the name on
`" "`, drop the last piece when there are at least two; a non-string name
raises on `.split`. -/
def format_temp_rec (obj : PyDict) : Except Unit PyDict :=
  match dgetD obj "name" (.str "") with
  | .str nm =>
      let parts := pysplit nm ' '
      if parts.length > 1 then .ok (dset obj "name" (.str (joinWith " " parts.dropLast)))
      else .ok obj
  | _ => .error ()

/-- The function `format_temp` (main.py 165-171). -/
def format_temp : List PyDict → Except Unit (List PyDict)
  | [] => .ok []
  | obj :: rest =>
      match format_temp_rec obj with
      | .error e => .error e
      | .ok r =>
          match format_temp rest with
          | .error e => .error e
          | .ok rs => .ok (r :: rs)

/-- The stopword list `remove` of `format_sysboard` (main.py 174). -/
def sysboardStop : List String := ["System", "Board", "Usage"]

/-- Per-record body of `format_sysboard` (main.py 175-180): keep the tokens
that are not stopwords; assign the rejoined name only when that list is
non-empty (`if buffer:`). -/
def format_sysboard_rec (obj : PyDict) : Except Unit PyDict :=
  match dgetD obj "name" (.str "") with
  | .str nm =>
      let buffer := (pysplit nm ' ').filter (fun w => !sysboardStop.contains w)
      if buffer.isEmpty then .ok obj
      else .ok (dset obj "name" (.str (joinWith " " buffer)))
  | _ => .error ()

/-- The function `format_sysboard` (main.py 173-181). -/
def format_sysboard : List PyDict → Except Unit (List PyDict)
  | [] => .ok []
  | obj :: rest =>
      match format_sysboard_rec obj with
      | .error e => .error e
      | .ok r =>
          match format_sysboard rest with
          | .error e => .error e
          | .ok rs => .ok (r :: rs)

/-- Member-list selection of `main` (main.py 250-266) on the parsed sensor
document: for a dict, `parsed.get('Members') or parsed.get('members') or
parsed` (Python `or`, i.e. truthiness-based); for anything else `sensors`
stays `None` and re-parsing the raw text yields the same value.  Anything
that is not a list then raises `RuntimeError("Unexpected type for
sensors.")`. -/
def selectMembers (parsed : JVal) : Except Unit (List JVal) :=
  let sensors : JVal :=
    match parsed with
    | .obj fs =>
        let m1 := dgetD fs "Members" .null
        if truthy m1 then m1
        else
          let m2 := dgetD fs "members" .null
          if truthy m2 then m2 else parsed
    | v => v
  match sensors with
  | .arr xs => .ok xs
  | _ => .error ()

/-- The fixed key list of the sensor pipeline (main.py 268-275). -/
def sensorKeys : List (String × String) :=
  [("id", "Id"), ("name", "Name"), ("context", "PhysicalContext"),
   ("reading", "Reading"), ("type", "ReadingType"), ("health", "Status.Health")]

/-- One iteration of the member loop of `main` (main.py 280-314), up to and
including extraction.  `fetch` models `execute_request` followed by
`json.loads`; `none` means the member is skipped (`continue`), either
because a fetch/parse failed, because the entry has an unknown type, or
because extraction raised (unreachable with `sensorKeys`). -/
def processMember (fetch : JVal → Except Unit JVal) (sensor : JVal) : Option PyDict :=
  match sensor with
  | .obj fs =>
      if (dget fs "@odata.id").isSome then
        match fetch (dgetD fs "@odata.id" .null) with
        | .error _ => none
        | .ok v =>
            match extract_data v (.listSpec sensorKeys) with
            | .ok (.obj d) => some d
            | _ => none
      else
        match extract_data (.obj fs) (.listSpec sensorKeys) with
        | .ok (.obj d) => some d
        | _ => none
  | .str s =>
      match fetch (.str s) with
      | .error _ => none
      | .ok v =>
          match extract_data v (.listSpec sensorKeys) with
          | .ok (.obj d) => some d
          | _ => none
  | _ => none

/-- The four bucket lists of `out` after normalization. -/
structure SensorOut where
  fan : List PyDict
  psu : List PyDict
  temperature : List PyDict
  sysBoard : List PyDict

/-- The sensor-discovery phase of `main` (main.py 277-340), from the member
list to the normalized buckets.  The member loop appends each extracted
record to exactly one bucket (first-seen order), which equals a per-bucket
`filter` over the extracted records; the three normalizers then run outside
any per-member handler, so an exception in one of them is the phase's
result. -/
def sensorPhase (fetch : JVal → Except Unit JVal) (sensors : List JVal) :
    Except Unit SensorOut :=
  let parsedL := sensors.filterMap (processMember fetch)
  let rawFan := parsedL.filter (fun p => classify_sensor p = Bucket.fan)
  let rawPsu := parsedL.filter (fun p => classify_sensor p = Bucket.psu)
  let rawTemp := parsedL.filter (fun p => classify_sensor p = Bucket.temperature)
  let rawSys := parsedL.filter (fun p => classify_sensor p = Bucket.sysBoard)
  match format_psu rawPsu with
  | .error e => .error e
  | .ok psuF =>
      match format_temp rawTemp with
      | .error e => .error e
      | .ok tempF =>
          match format_sysboard rawSys with
          | .error e => .error e
          | .ok sysF => .ok ⟨rawFan, psuF, tempF, sysF⟩

/-- The grouping token of a psu record: the first `" "`-separated piece of
its name (the source's `obj.get("name","").split(" ")[0]`). -/
def psuTokenOf (o : PyDict) : String :=
  firstToken (strOfD (dgetD o "name" (.str "")))

/-- The merge key of a psu record: its lowercased type
(the source's `obj.get("type","").lower()`). -/
def psuTypeOf (o : PyDict) : String :=
  pyLower (strOfD (dgetD o "type" (.str "")))

/-- Deduplication keeping the first occurrence of each element, with an
accumulator of elements already seen. -/
def feAux (seen : List String) : List String → List String
  | [] => []
  | x :: rest =>
      if seen.contains x then feAux seen rest
      else x :: feAux (seen ++ [x]) rest

/-- Deduplication keeping first occurrences, in first-encounter order. -/
def firstEncounter (l : List String) : List String := feAux [] l

/-- Modelled from the spec (§4.4, PSU Merge): the group identifiers, i.e.
the distinct first tokens in first-encounter order of the input scan. -/
def psuGroups (xs : List PyDict) : List String :=
  firstEncounter (xs.map psuTokenOf)

/-- Modelled from the spec (§4.4, PSU Merge): the single record emitted for
the group `w` — start from `{name: w}` and write each group member's
`{reading, health}` payload under its lowercased type, in scan order, so a
later duplicate type overwrites an earlier one (last-write-wins). -/
def psuGroupRec (xs : List PyDict) (w : String) : PyDict :=
  (xs.filter (fun o => psuTokenOf o == w)).foldl
    (fun d o => dset d (psuTypeOf o) (psuPayload o)) [("name", .str w)]

/-- Modelled from the spec (§4.4, PSU Merge): one record per group, groups
in first-encounter order. -/
def formatPsuSpec (xs : List PyDict) : List PyDict :=
  (psuGroups xs).map (psuGroupRec xs)

/-- Modelled from the spec (§4.4, Temperature Trim): the per-record trim —
more than one `" "`-separated piece drops the final piece and rejoins,
otherwise the record is unchanged. -/
def tempRecSpec (obj : PyDict) : PyDict :=
  match dgetD obj "name" (.str "") with
  | .str nm =>
      let parts := pysplit nm ' '
      if parts.length > 1 then dset obj "name" (.str (joinWith " " parts.dropLast))
      else obj
  | _ => obj

/-- The non-stopword tokens of a sysBoard name. -/
def sysboardRemainder (nm : String) : List String :=
  (pysplit nm ' ').filter (fun w => !sysboardStop.contains w)

/-- Modelled from the spec (§4.4, SysBoard Trim): the per-record trim —
when every token is a stopword (empty remainder) the original name is
preserved, otherwise the name becomes the rejoined remainder. -/
def sysboardRecSpec (obj : PyDict) : PyDict :=
  match dgetD obj "name" (.str "") with
  | .str nm =>
      if (sysboardRemainder nm).isEmpty then obj
      else dset obj "name" (.str (joinWith " " (sysboardRemainder nm)))
  | _ => obj

/-- The records `format_psu` handles without raising and without colliding
with the `"name"` key: string name, string type, lowercased type not the
literal `"name"`. -/
def goodPsu (o : PyDict) : Prop :=
  isStrB (dgetD o "name" (.str "")) = true ∧
  isStrB (dgetD o "type" (.str "")) = true ∧
  psuTypeOf o ≠ "name"

instance (o : PyDict) : Decidable (goodPsu o) := by
  unfold goodPsu
  infer_instance

section Lemmas

lemma contains_mem (l : List String) (a : String) : l.contains a = true ↔ a ∈ l := by
  simp [List.elem_iff, List.contains]

lemma parse_json_null (post : List String) : parse_json .null post = .null := by
  cases post <;> rfl

lemma dget_dset_ne (d : PyDict) (k : String) (v : JVal) (k2 : String) (h : k ≠ k2) :
    dget (dset d k v) k2 = dget d k2 := by
  induction d with
  | nil => simp [dset, dget, h]
  | cons p rest ih =>
      by_cases hk : p.1 = k
      · simp [dset, hk, dget, h, fun hh : k = k2 => h hh]
      · simp only [dset]
        rw [if_neg hk]
        by_cases h2 : p.1 = k2 <;> simp [dget, h2, ih]

lemma contains_append (l1 l2 : List String) (a : String) :
    (l1 ++ l2).contains a = (l1.contains a || l2.contains a) := by
  induction l1 with
  | nil => simp
  | cons b bs ih => simp [List.contains_cons, ih, Bool.or_assoc]

lemma fe_mem (l : List String) : ∀ (seen : List String) (y : String),
    y ∈ feAux seen l ↔ (y ∈ l ∧ ¬ y ∈ seen) := by
  induction l with
  | nil => intro seen y; simp [feAux]
  | cons x rest ih =>
      intro seen y
      simp only [feAux]
      by_cases hx : seen.contains x
      · rw [if_pos hx, ih]
        have hxs : x ∈ seen := (contains_mem seen x).mp hx
        simp only [List.mem_cons]
        constructor
        · rintro ⟨hy, hns⟩
          exact ⟨Or.inr hy, hns⟩
        · rintro ⟨hy | hy, hns⟩
          · exact absurd (hy ▸ hxs) hns
          · exact ⟨hy, hns⟩
      · rw [if_neg hx]
        have hxs : ¬ x ∈ seen := fun h => hx ((contains_mem seen x).mpr h)
        constructor
        · intro hmem
          rcases List.mem_cons.mp hmem with rfl | hmem2
          · exact ⟨List.mem_cons_self .., hxs⟩
          · have h2 := (ih _ y).mp hmem2
            exact ⟨List.mem_cons_of_mem _ h2.1,
              fun h => h2.2 (List.mem_append.mpr (Or.inl h))⟩
        · rintro ⟨hy, hns⟩
          rcases List.mem_cons.mp hy with rfl | hy2
          · exact List.mem_cons_self ..
          · by_cases hyx : y = x
            · subst hyx; exact List.mem_cons_self ..
            · refine List.mem_cons_of_mem _ ((ih _ y).mpr ⟨hy2, fun h => ?_⟩)
              rcases List.mem_append.mp h with h | h
              · exact hns h
              · exact hyx (List.mem_singleton.mp h)

lemma fe_nodup (l : List String) : ∀ seen, (feAux seen l).Nodup := by
  induction l with
  | nil => intro seen; simp [feAux]
  | cons x rest ih =>
      intro seen
      simp only [feAux]
      by_cases hx : seen.contains x
      · rw [if_pos hx]; exact ih seen
      · rw [if_neg hx]
        refine List.nodup_cons.mpr ⟨?_, ih _⟩
        intro hmem
        exact ((fe_mem rest _ x).mp hmem).2 (by simp)

lemma fe_append (l : List String) : ∀ (seen : List String) (x : String),
    feAux seen (l ++ [x])
      = feAux seen l ++ (if seen.contains x || l.contains x then [] else [x]) := by
  induction l with
  | nil =>
      intro seen x
      by_cases hx : seen.contains x <;> simp [feAux, hx]
  | cons y rest ih =>
      intro seen x
      simp only [List.cons_append, feAux, List.append_eq]
      by_cases hy : seen.contains y
      · rw [if_pos hy, if_pos hy, ih]
        congr 1
        by_cases hsx : seen.contains x
        · have hx2 : x ∈ seen := (contains_mem seen x).mp hsx
          simp [hx2]
        · have hxy : ¬ x = y := fun h => hsx (h ▸ hy)
          simp [hsx, List.contains_cons, hxy]
      · rw [if_neg hy, if_neg hy, ih]
        simp only [List.cons_append]
        congr 2
        rw [contains_append]
        by_cases hsx : seen.contains x
        · simp [or_assoc]
        · by_cases hxy : x = y
          · subst hxy
            simp [List.contains_cons]
          · simp [hsx, List.contains_cons, hxy, or_assoc]

lemma firstEncounter_append (l : List String) (x : String) :
    firstEncounter (l ++ [x])
      = firstEncounter l ++ (if l.contains x then [] else [x]) := by
  have h := fe_append l [] x
  simpa [firstEncounter] using h

lemma firstEncounter_mem (l : List String) (y : String) :
    y ∈ firstEncounter l ↔ y ∈ l := by
  simpa [firstEncounter] using fe_mem l [] y

lemma firstEncounter_nodup (l : List String) : (firstEncounter l).Nodup :=
  fe_nodup l []

lemma payload_fold_name (l : List PyDict) : ∀ (d : PyDict),
    (∀ o ∈ l, psuTypeOf o ≠ "name") →
    dget (l.foldl (fun d o => dset d (psuTypeOf o) (psuPayload o)) d) "name" = dget d "name" := by
  induction l with
  | nil => intro d _; rfl
  | cons o rest ih =>
      intro d h
      simp only [List.foldl_cons]
      rw [ih _ (fun o2 ho => h o2 (List.mem_cons_of_mem _ ho))]
      exact dget_dset_ne _ _ _ _ (h o (List.mem_cons_self ..))

lemma psuGroupRec_name (xs : List PyDict) (w : String)
    (h : ∀ o ∈ xs, psuTypeOf o ≠ "name") :
    dget (psuGroupRec xs w) "name" = some (.str w) := by
  unfold psuGroupRec
  rw [payload_fold_name _ _ (fun o ho => h o (List.mem_filter.mp ho).1)]
  rfl

lemma updatePsu_map (f : String → PyDict) (w tl : String) (pay : JVal) :
    ∀ (ws : List String),
    (∀ u ∈ ws, dget (f u) "name" = some (.str u)) →
    ws.Nodup → w ∈ ws →
    updatePsu w tl pay (ws.map f)
      = .ok (ws.map fun u => if u = w then dset (f u) tl pay else f u) := by
  intro ws
  induction ws with
  | nil => intro _ _ h; exact absurd h (List.not_mem_nil w)
  | cons u rest ih =>
      intro hname hnd hw
      simp only [List.map_cons, updatePsu, hname u (List.mem_cons_self ..)]
      by_cases huw : u = w
      · subst huw
        rw [if_pos (by simp [jvalIsStrV])]
        have hrest : rest.map (fun v => if v = u then dset (f v) tl pay else f v)
            = rest.map f := by
          apply List.map_congr_left
          intro a ha
          apply if_neg
          intro h2
          exact (List.nodup_cons.mp hnd).1 (h2 ▸ ha)
        simp [hrest]
      · rw [if_neg (by simp [jvalIsStrV, huw])]
        have hw2 : w ∈ rest := by
          rcases List.mem_cons.mp hw with h2 | h2
          · exact absurd h2.symm huw
          · exact h2
        rw [ih (fun v hv => hname v (List.mem_cons_of_mem _ hv))
          (List.nodup_cons.mp hnd).2 hw2]
        simp [if_neg huw]

lemma contains_eq_false (l : List String) (a : String) (h : ¬ a ∈ l) :
    l.contains a = false := by
  cases hb : l.contains a
  · rfl
  · exact absurd ((contains_mem l a).mp hb) h

lemma append_cons_eq {α : Type} (as : List α) (b : α) (bs : List α) :
    (as ++ [b]) ++ bs = as ++ b :: bs := by simp

lemma psuGroups_append_mem (pre : List PyDict) (obj : PyDict)
    (h : psuTokenOf obj ∈ pre.map psuTokenOf) :
    psuGroups (pre ++ [obj]) = psuGroups pre := by
  unfold psuGroups
  rw [List.map_append, List.map_singleton, firstEncounter_append,
    (contains_mem ..).mpr h]
  simp

lemma psuGroups_append_new (pre : List PyDict) (obj : PyDict)
    (h : ¬ psuTokenOf obj ∈ pre.map psuTokenOf) :
    psuGroups (pre ++ [obj]) = psuGroups pre ++ [psuTokenOf obj] := by
  unfold psuGroups
  rw [List.map_append, List.map_singleton, firstEncounter_append,
    contains_eq_false _ _ h]
  simp

lemma psuGroupRec_append_ne (pre : List PyDict) (obj : PyDict) (u : String)
    (h : ¬ psuTokenOf obj = u) :
    psuGroupRec (pre ++ [obj]) u = psuGroupRec pre u := by
  unfold psuGroupRec
  have hb : (psuTokenOf obj == u) = false := beq_eq_false_iff_ne.mpr h
  rw [List.filter_append]
  simp [List.filter, hb]

lemma psuGroupRec_append_eq (pre : List PyDict) (obj : PyDict) (u : String)
    (h : psuTokenOf obj = u) :
    psuGroupRec (pre ++ [obj]) u
      = dset (psuGroupRec pre u) (psuTypeOf obj) (psuPayload obj) := by
  unfold psuGroupRec
  have hb : (psuTokenOf obj == u) = true := beq_iff_eq.mpr h
  rw [List.filter_append]
  simp [List.filter, hb, List.foldl_append]

lemma filter_token_nil (pre : List PyDict) (w : String)
    (h : ¬ w ∈ pre.map psuTokenOf) :
    pre.filter (fun o => psuTokenOf o == w) = [] := by
  rw [List.filter_eq_nil_iff]
  intro o ho hbeq
  exact h (List.mem_map.mpr ⟨o, ho, by simpa using hbeq⟩)

lemma psuGroupRec_of_new (pre : List PyDict) (obj : PyDict)
    (h : ¬ psuTokenOf obj ∈ pre.map psuTokenOf) :
    psuGroupRec (pre ++ [obj]) (psuTokenOf obj)
      = dset (dset [] "name" (.str (psuTokenOf obj))) (psuTypeOf obj) (psuPayload obj) := by
  rw [psuGroupRec_append_eq pre obj _ rfl]
  have hrec : psuGroupRec pre (psuTokenOf obj) = [("name", .str (psuTokenOf obj))] := by
    unfold psuGroupRec
    rw [filter_token_nil pre _ h]
    rfl
  rw [hrec]
  rfl

lemma goodPsu_name (o : PyDict) (h : goodPsu o) :
    ∃ nm, dgetD o "name" (.str "") = .str nm ∧ psuTokenOf o = firstToken nm := by
  rcases h with ⟨h1, -, -⟩
  revert h1
  cases hv : dgetD o "name" (.str "") <;> intro h1 <;> simp [isStrB] at h1
  exact ⟨_, rfl, by simp [psuTokenOf, strOfD, hv]⟩

lemma goodPsu_type (o : PyDict) (h : goodPsu o) :
    ∃ ty, dgetD o "type" (.str "") = .str ty ∧ psuTypeOf o = pyLower ty := by
  rcases h with ⟨-, h2, -⟩
  revert h2
  cases hv : dgetD o "type" (.str "") <;> intro h2 <;> simp [isStrB] at h2
  exact ⟨_, rfl, by simp [psuTypeOf, strOfD, hv]⟩

lemma format_psu_go_spec : ∀ (rest pre : List PyDict),
    (∀ o ∈ pre ++ rest, goodPsu o) →
    format_psu_go rest (psuGroups pre) (formatPsuSpec pre)
      = .ok (formatPsuSpec (pre ++ rest)) := by
  intro rest
  induction rest with
  | nil => intro pre h; simp [format_psu_go]
  | cons obj rest ih =>
      intro pre h
      have hobj : goodPsu obj := h obj (by simp)
      have htypes : ∀ o ∈ pre, psuTypeOf o ≠ "name" :=
        fun o ho => (h o (by simp [ho])).2.2
      obtain ⟨nm, hnm, htok⟩ := goodPsu_name obj hobj
      obtain ⟨ty, hty, htl⟩ := goodPsu_type obj hobj
      have hih := ih (pre ++ [obj]) (by
        intro o ho
        apply h
        rw [← append_cons_eq]
        exact ho)
      rw [append_cons_eq] at hih
      simp only [format_psu_go, hnm, hty]
      by_cases hmem : psuTokenOf obj ∈ pre.map psuTokenOf
      · have hw : firstToken nm ∈ psuGroups pre := by
          unfold psuGroups
          rw [firstEncounter_mem]
          exact htok ▸ hmem
        have hcont : (psuGroups pre).contains (firstToken nm) = true :=
          (contains_mem ..).mpr hw
        rw [if_pos hcont]
        have hnames : ∀ u ∈ psuGroups pre,
            dget (psuGroupRec pre u) "name" = some (.str u) :=
          fun u _ => psuGroupRec_name pre u htypes
        have hupd := updatePsu_map (psuGroupRec pre) (firstToken nm) (pyLower ty)
          (psuPayload obj) (psuGroups pre) hnames (firstEncounter_nodup _) hw
        have hbuf : ((psuGroups pre).map fun u =>
              if u = firstToken nm then
                dset (psuGroupRec pre u) (pyLower ty) (psuPayload obj)
              else psuGroupRec pre u)
            = formatPsuSpec (pre ++ [obj]) := by
          unfold formatPsuSpec
          rw [psuGroups_append_mem pre obj hmem]
          apply List.map_congr_left
          intro u _
          by_cases huw : u = firstToken nm
          · rw [if_pos huw, psuGroupRec_append_eq pre obj u (htok.trans huw.symm), htl]
          · rw [if_neg huw, psuGroupRec_append_ne pre obj u
              (fun h2 => huw (h2 ▸ htok ▸ rfl))]
        have hupd2 : updatePsu (firstToken nm) (pyLower ty) (psuPayload obj)
            (formatPsuSpec pre) = .ok (formatPsuSpec (pre ++ [obj])) := by
          rw [show formatPsuSpec pre = (psuGroups pre).map (psuGroupRec pre) from rfl,
            hupd, hbuf]
        rw [hupd2]
        show format_psu_go rest (psuGroups pre) (formatPsuSpec (pre ++ [obj]))
          = .ok (formatPsuSpec (pre ++ obj :: rest))
        rw [show psuGroups pre = psuGroups (pre ++ [obj]) from
          (psuGroups_append_mem pre obj hmem).symm]
        exact hih
      · have hw : ¬ firstToken nm ∈ psuGroups pre := by
          unfold psuGroups
          rw [firstEncounter_mem, ← htok]
          exact hmem
        have hcont : (psuGroups pre).contains (firstToken nm) = false :=
          contains_eq_false _ _ hw
        rw [if_neg (by rw [hcont]; exact Bool.false_ne_true)]
        have hbuf : formatPsuSpec pre
              ++ [dset (dset [] "name" (.str (firstToken nm))) (pyLower ty) (psuPayload obj)]
            = formatPsuSpec (pre ++ [obj]) := by
          unfold formatPsuSpec
          rw [psuGroups_append_new pre obj hmem, List.map_append, List.map_singleton]
          congr 1
          · apply List.map_congr_left
            intro u hu
            have hu2 : u ∈ pre.map psuTokenOf := by
              have := hu
              unfold psuGroups at this
              exact (firstEncounter_mem ..).mp this
            exact (psuGroupRec_append_ne pre obj u (fun h2 => hmem (h2 ▸ hu2))).symm
          · rw [psuGroupRec_of_new pre obj hmem, htok, htl]
        rw [hbuf]
        rw [show psuGroups pre ++ [firstToken nm] = psuGroups (pre ++ [obj]) from by
          rw [psuGroups_append_new pre obj hmem, htok]]
        exact hih

end Lemmas

section Claims

/-- Claim C4: the Value Navigator is total — in the model `parse_json` is a
plain function (every raising path of the source is caught and mapped to
`null`), and whenever the traversal of some prefix of the path has already
failed (come out absent), the result for the whole path is absent. -/
theorem parse_json_total_absent (data : JVal) (pre post : List String)
    (h : parse_json data pre = .null) :
    parse_json data (pre ++ post) = .null := by
  induction pre generalizing data with
  | nil =>
      have hd : data = .null := h
      subst hd
      exact parse_json_null post
  | cons p pre ih =>
      simp only [List.cons_append, parse_json] at h ⊢
      by_cases hnull : isNullB data = true
      · rw [if_pos hnull]
      · rw [if_neg hnull]
        rw [if_neg hnull] at h
        cases hs : jsonStep data p with
        | none => rfl
        | some v =>
            rw [hs] at h
            exact ih v h

/-- Witness for C4 at a concrete input: the first segment `"q"` misses, so
the two-segment path resolves to absent. -/
theorem parse_json_total_absent_witness :
    parse_json (.obj [("a", .str "x")]) ["q", "b"] = .null :=
  parse_json_total_absent (.obj [("a", .str "x")]) ["q"] ["b"] rfl

/-- Claim C5 counterexample: the bracketed segment `K[-1]` does NOT resolve
to absent — Python's `int("-1")` parses and list indexing accepts negative
indices, so it returns the LAST element of the sequence. -/
theorem bracket_negative_index_counterexample :
    parse_json (.obj [("K", .arr [.num 1, .num 2, .num 3])]) ["K[-1]"] = .num 3
      ∧ JVal.num 3 ≠ JVal.null :=
  ⟨rfl, fun h => JVal.noConfusion h⟩

/-- Claim C5 (amended): for a bracketed segment resolving through key `k`
to a sequence `xs`, the result is absent when the index is at or beyond
`xs.length`, below `-xs.length`, or unparseable as an integer; but a
negative in-range index `-xs.length ≤ i < 0` resolves to the element at
position `i + xs.length` (Python negative indexing), not to absent. -/
theorem bracket_index_amended (fields : PyDict) (seg k s : String) (xs : List JVal)
    (hseg : segParse seg = some (k, s)) (hk : dget fields k = some (.arr xs)) :
    (pyInt s.data = none → parse_json (.obj fields) [seg] = .null) ∧
    (∀ i : Int, pyInt s.data = some i →
      (((xs.length : Int) ≤ i ∨ i < -(xs.length : Int)) →
          parse_json (.obj fields) [seg] = .null) ∧
      (-(xs.length : Int) ≤ i → i < 0 →
          parse_json (.obj fields) [seg]
            = xs.getD (i + (xs.length : Int)).toNat .null)) := by
  have hred : parse_json (.obj fields) [seg]
      = (match jsonStep (.obj fields) seg with | none => .null | some v => v) := by
    simp only [parse_json, isNullB]
    cases jsonStep (.obj fields) seg <;> simp [parse_json]
  refine ⟨?_, ?_⟩
  · intro hp
    rw [hred]
    simp [jsonStep, hseg, dgetD, hk, hp, Option.getD]
  · intro i hp
    constructor
    · intro hrange
      rw [hred]
      simp only [jsonStep, hseg, dgetD, hk, hp, Option.getD]
      have hidx : pyIndexL xs i = none := by
        simp only [pyIndexL]
        rcases hrange with h1 | h1
        · rw [if_neg (by omega : ¬ i < 0), if_pos (by omega : (0:Int) ≤ i)]
          exact List.get?_eq_none.mpr (by omega)
        · rw [if_pos (by omega : i < 0), if_neg (by omega : ¬ (0:Int) ≤ i + xs.length)]
      rw [hidx]
    · intro hge hlt
      rw [hred]
      simp only [jsonStep, hseg, dgetD, hk, hp, Option.getD]
      have hidx : pyIndexL xs i = some (xs.getD (i + (xs.length : Int)).toNat .null) := by
        simp only [pyIndexL]
        rw [if_pos hlt, if_pos (by omega : (0:Int) ≤ i + xs.length)]
        have hbound : (i + (xs.length : Int)).toNat < xs.length := by omega
        cases hget : xs.get? (i + (xs.length : Int)).toNat with
        | none =>
            have := List.get?_eq_none.mp hget
            omega
        | some e => simp [List.getD, ← List.get?_eq_getElem?, hget]
      rw [hidx]

/-- Witness for C5 (amended) at a concrete input: index 5 is beyond the
2-element sequence, so the segment resolves to absent. -/
theorem bracket_index_amended_witness :
    parse_json (.obj [("K", .arr [.num 1, .num 2])]) ["K[5]"] = .null :=
  ((bracket_index_amended [("K", .arr [.num 1, .num 2])] "K[5]" "K" "5"
    [.num 1, .num 2] rfl rfl).2 5 rfl).1 (Or.inl (by decide))

/-- Claim C6 counterexample: for a SINGLE named record the path
`@odata.id` is NOT a direct same-level lookup — the source only
special-cases it in the list branch, so the single-record branch splits on
the dot and traverses `@odata` then `id`, returning `"Y"` although the
direct field holds `"X"`. -/
theorem odata_dictspec_counterexample :
    extract_data (.obj [("@odata.id", .str "X"), ("@odata", .obj [("id", .str "Y")])])
        (.dictSpec "n" "@odata.id") = .ok (.obj [("n", .str "Y")])
      ∧ dgetD [("@odata.id", JVal.str "X"), ("@odata", .obj [("id", .str "Y")])]
          "@odata.id" .null = .str "X"
      ∧ JVal.str "Y" ≠ JVal.str "X" :=
  ⟨rfl, rfl, fun h => by injection h with h2; exact absurd h2 (by decide)⟩

/-- Claim C6 (amended): only inside an ordered sequence of named records is
the path literal `@odata.id` resolved as a direct same-level field lookup;
a single named record and a bare path string split on the dot and traverse
the keys `@odata` then `id` via the Value Navigator. -/
theorem odata_direct_only_in_list (fs : PyDict) (n : String) :
    extract_data (.obj fs) (.listSpec [(n, "@odata.id")])
        = .ok (.obj [(n, dgetD fs "@odata.id" .null)])
      ∧ extract_data (.obj fs) (.dictSpec n "@odata.id")
        = .ok (.obj [(n, parse_json (.obj fs) ["@odata", "id"])])
      ∧ extract_data (.obj fs) (.strSpec "@odata.id")
        = .ok (parse_json (.obj fs) ["@odata", "id"]) := by
  have hsp : pysplit "@odata.id" '.' = ["@odata", "id"] := rfl
  refine ⟨?_, ?_, ?_⟩
  · simp [extract_data, extract_list, dset]
  · simp [extract_data, hsp]
  · simp [extract_data, hsp]

/-- Claim C1: the classifier is a pure function of the extracted record
equal to the spec's first-match-wins rule cascade (so every record lands in
exactly one of fan/psu/temperature/sysBoard/discard), and in particular a
record satisfying rule 1 (PS-prefixed string name and context
`PowerSupply`) is bucketed psu no matter what the fallback would say. -/
theorem classify_sensor_spec_order (r : PyDict) :
    classify_sensor r
        = classifySensorSpec (dget r "name") (dget r "context") (dget r "type")
      ∧ ((strPS (dgetD r "name" (.str "")) &&
            optIsStr (dget r "context") "PowerSupply") = true →
          classify_sensor r = Bucket.psu) := by
  constructor
  · unfold classify_sensor classifySensorSpec dgetD
    rcases hn : dget r "name" with _ | nv
    all_goals rcases hc : dget r "context" with _ | cv
    all_goals try cases nv
    all_goals try cases cv
    all_goals rfl
  · intro hcond
    simp only [classify_sensor]
    rw [if_pos hcond]

/-- Witness for C1 at a concrete input: a record matching both rule 1 and
the context fallback is bucketed psu. -/
theorem classify_sensor_spec_order_witness :
    classify_sensor [("name", JVal.str "PS2 Current"), ("context", JVal.str "PowerSupply")]
      = Bucket.psu :=
  (classify_sensor_spec_order
    [("name", JVal.str "PS2 Current"), ("context", JVal.str "PowerSupply")]).2 (by decide)

/-- Claim C10: when the extracted name is not a string, classification does
not raise (the model stays a total function because the source guards every
name-based rule with `isinstance(name, str)`), and the record can only be
bucketed by `type == "Temperature"` or by the context-only fallback. -/
theorem classify_nonstring_name (r : PyDict)
    (h : isStrB (dgetD r "name" (.str "")) = false) :
    classify_sensor r =
      (if optIsStr (dget r "type") "Temperature" then Bucket.temperature
       else if jvalIsStrV (dgetD r "context" (.str "")) "PowerSupply" then Bucket.psu
       else if jvalIsStrV (dgetD r "context" (.str "")) "Chassis" then Bucket.sysBoard
       else Bucket.discard) := by
  cases hv : dgetD r "name" (.str "") <;> rw [hv] at h
  case str => simp [isStrB] at h
  all_goals simp [classify_sensor, hv, strPS, strHas]

/-- Witness for C10 at a concrete input: a record whose `Name` was absent
(null name) with context `PowerSupply` goes to psu via the fallback. -/
theorem classify_nonstring_name_witness :
    classify_sensor [("name", JVal.null), ("context", JVal.str "PowerSupply")]
      = Bucket.psu := by
  have h := classify_nonstring_name
    [("name", JVal.null), ("context", JVal.str "PowerSupply")] rfl
  rw [h]
  rfl

/-- Claim C7 counterexample: SysBoard Trim CAN produce an empty name from a
non-empty one — `"System "` splits into `["System", ""]`, the empty token
is not a stopword, so the remainder `[""]` is non-empty and rejoins to
`""`. -/
theorem sysboard_empty_name_counterexample :
    format_sysboard [[("name", .str "System ")]] = .ok [[("name", .str "")]]
      ∧ ("System " : String) ≠ "" :=
  ⟨rfl, by decide⟩

/-- Claim C7 (amended): SysBoard Trim removes the stopword tokens and
rejoins; when the remainder LIST is empty the original name is preserved
unchanged (so `"System Board Usage"` is kept); but the remainder can be a
non-empty list of empty tokens, in which case a non-empty name is rewritten
to the empty string. -/
theorem format_sysboard_amended (xs : List PyDict)
    (h : ∀ o ∈ xs, isStrB (dgetD o "name" (.str "")) = true) :
    format_sysboard xs = .ok (xs.map sysboardRecSpec) := by
  induction xs with
  | nil => rfl
  | cons o rest ih =>
      have ho := h o (List.mem_cons_self ..)
      have hrec : format_sysboard_rec o = .ok (sysboardRecSpec o) := by
        revert ho
        cases hv : dgetD o "name" (.str "") <;> intro ho
        case str =>
          simp only [format_sysboard_rec, sysboardRecSpec, sysboardRemainder, hv]
          exact (apply_ite Except.ok _ _ _).symm
        all_goals simp [isStrB] at ho
      simp [format_sysboard, hrec, ih (fun o2 hmem => h o2 (List.mem_cons_of_mem _ hmem))]

/-- Witness for C7 (amended) at the concrete input from the claim: every
token of `"System Board Usage"` is a stopword, so the name is preserved. -/
theorem format_sysboard_amended_witness :
    format_sysboard [[("name", JVal.str "System Board Usage")]]
      = .ok [[("name", JVal.str "System Board Usage")]] := by
  have h := format_sysboard_amended [[("name", JVal.str "System Board Usage")]] (by decide)
  rw [h]
  rfl

/-- Claim C8: Temperature Trim splits the name on the space character; with
more than one piece it drops exactly the final piece and rejoins with
single spaces, and a single-piece name is left unchanged. -/
theorem format_temp_drops_last (xs : List PyDict)
    (h : ∀ o ∈ xs, isStrB (dgetD o "name" (.str "")) = true) :
    format_temp xs = .ok (xs.map tempRecSpec) := by
  induction xs with
  | nil => rfl
  | cons o rest ih =>
      have ho := h o (List.mem_cons_self ..)
      have hrec : format_temp_rec o = .ok (tempRecSpec o) := by
        revert ho
        cases hv : dgetD o "name" (.str "") <;> intro ho
        case str =>
          simp only [format_temp_rec, tempRecSpec, hv]
          exact (apply_ite Except.ok _ _ _).symm
        all_goals simp [isStrB] at ho
      simp [format_temp, hrec, ih (fun o2 hmem => h o2 (List.mem_cons_of_mem _ hmem))]

/-- Witness for C8 at the claim's concrete inputs: `"Inlet Temp"` becomes
`"Inlet"` and the single-token `"CPU1"` stays unchanged. -/
theorem format_temp_drops_last_witness :
    format_temp [[("name", JVal.str "Inlet Temp")], [("name", JVal.str "CPU1")]]
      = .ok [[("name", JVal.str "Inlet")], [("name", JVal.str "CPU1")]] := by
  have h := format_temp_drops_last
    [[("name", JVal.str "Inlet Temp")], [("name", JVal.str "CPU1")]] (by decide)
  rw [h]
  rfl

/-- Claim C9 counterexample: member-list selection is by Python truthiness,
not presence — with `Members` bound to the EMPTY list the source's
`get('Members') or get('members') or parsed` falls through to `members`,
so the member list is `[.str "m"]`, not the empty `Members` value. -/
theorem members_truthiness_counterexample :
    selectMembers (.obj [("Members", .arr []), ("members", .arr [.str "m"])])
        = .ok [.str "m"]
      ∧ (Except.ok [JVal.str "m"] ≠ (.ok [] : Except Unit (List JVal))) :=
  ⟨rfl, fun h => by injection h with h2; exact List.noConfusion h2⟩

/-- Claim C9 (amended): the member list is the value of `Members` when that
value is truthy, else the value of `members` when truthy, else the document
itself — which for an object document means the phase fails (an object is
never a list), and a document that is already a sequence is used as the
member list.  A falsy `Members` value (such as an empty list) is skipped,
not used. -/
theorem selectMembers_amended (fs : PyDict) :
    (truthy (dgetD fs "Members" .null) = true →
        selectMembers (.obj fs)
          = (match dgetD fs "Members" .null with
             | .arr xs => .ok xs
             | _ => .error ()))
    ∧ (truthy (dgetD fs "Members" .null) = false →
        truthy (dgetD fs "members" .null) = true →
        selectMembers (.obj fs)
          = (match dgetD fs "members" .null with
             | .arr xs => .ok xs
             | _ => .error ()))
    ∧ (truthy (dgetD fs "Members" .null) = false →
        truthy (dgetD fs "members" .null) = false →
        selectMembers (.obj fs) = .error ())
    ∧ (∀ xs : List JVal, selectMembers (.arr xs) = .ok xs) := by
  refine ⟨?_, ?_, ?_, fun xs => rfl⟩
  · intro h1
    simp only [selectMembers]
    rw [if_pos h1]
  · intro h1 h2
    simp only [selectMembers]
    rw [if_neg (by rw [h1]; exact Bool.false_ne_true), if_pos h2]
  · intro h1 h2
    simp only [selectMembers]
    rw [if_neg (by rw [h1]; exact Bool.false_ne_true),
      if_neg (by rw [h2]; exact Bool.false_ne_true)]

/-- Witness for C9 (amended) at a concrete input: an object whose only
member field is the falsy `Members: []` makes the phase fail instead of
yielding an empty member list. -/
theorem selectMembers_amended_witness :
    selectMembers (.obj [("Members", .arr [])]) = .error () :=
  (selectMembers_amended [("Members", .arr [])]).2.2.1 rfl rfl

/-- Claim C3 counterexample: a member-local problem that surfaces only in
normalization aborts the whole sensor phase.  The first member alone is
fetched, classified and emitted; adding a second member whose `Name` is
absent (extracted name null, classified psu via the context fallback) makes
`format_psu` raise on `None.split`, the phase returns an error, and the
healthy first member is dropped from the output too. -/
theorem normalizer_aborts_phase_counterexample :
    sensorPhase (fun _ => .error ())
        [.obj [("Name", .str "Inlet Temp"), ("ReadingType", .str "Temperature"),
          ("Reading", .num 21), ("Status", .obj [("Health", .str "OK")])]]
      = .ok ⟨[], [], [[("id", .null), ("name", .str "Inlet"), ("context", .null),
          ("reading", .num 21), ("type", .str "Temperature"), ("health", .str "OK")]], []⟩
    ∧ sensorPhase (fun _ => .error ())
        [.obj [("Name", .str "Inlet Temp"), ("ReadingType", .str "Temperature"),
          ("Reading", .num 21), ("Status", .obj [("Health", .str "OK")])],
         .obj [("PhysicalContext", .str "PowerSupply"), ("ReadingType", .str "Voltage")]]
      = .error () :=
  ⟨rfl, rfl⟩

/-- Claim C3 (amended): a per-member fetch, parse or extract failure makes
`processMember` skip exactly that member, and the phase result over the
remaining members is unchanged — every other member is still classified;
only an error raised inside the normalizers (outside the per-member
handlers) can abort the whole sensor phase. -/
theorem member_skip_isolated (fetch : JVal → Except Unit JVal) (m : JVal)
    (xs ys : List JVal) (h : processMember fetch m = none) :
    sensorPhase fetch (xs ++ m :: ys) = sensorPhase fetch (xs ++ ys) := by
  unfold sensorPhase
  have hfm : (xs ++ m :: ys).filterMap (processMember fetch)
      = (xs ++ ys).filterMap (processMember fetch) := by
    simp [List.filterMap_append, List.filterMap_cons, h]
  rw [hfm]

/-- Witness for C3 (amended) at a concrete input: a reference-string member
whose fetch fails is skipped and the phase over the remaining (empty)
member list is unchanged. -/
theorem member_skip_isolated_witness :
    sensorPhase (fun _ => .error ()) ([] ++ JVal.str "dead" :: [])
      = sensorPhase (fun _ => .error ()) ([] ++ []) :=
  member_skip_isolated (fun _ => .error ()) (.str "dead") [] [] rfl

/-- Claim C2 counterexample: the emitted record is NOT always
`{name: token, <lowercased type>: {reading, health}}` — a record whose
type is the literal `"Name"` lowercases to the key `"name"`, and the
Python dict literal's later duplicate key overwrites the token, so the
merged record's `name` holds the reading payload instead of `"PS1"`. -/
theorem psu_type_name_counterexample :
    format_psu [[("name", .str "PS1 Voltage"), ("type", .str "Name"),
        ("reading", .num 5), ("health", .str "OK")]]
      = .ok [[("name", .obj [("reading", .num 5), ("health", .str "OK")])]]
    ∧ JVal.obj [("reading", .num 5), ("health", .str "OK")] ≠ JVal.str "PS1" :=
  ⟨rfl, fun h => JVal.noConfusion h⟩

/-- Claim C2 (amended): for psu records whose name and type fields are
strings and whose lowercased type is not the literal `"name"`, the merge
groups records by the first space-delimited token of the name, emits
exactly one record per group holding `{name: token}` plus one
`{reading, health}` payload per lowercased type written in scan order
(so a later duplicate type overwrites an earlier one — last-write-wins),
with groups in first-encounter order of the input scan. -/
theorem format_psu_amended (xs : List PyDict) (h : ∀ o ∈ xs, goodPsu o) :
    format_psu xs = .ok (formatPsuSpec xs) := by
  have hgo := format_psu_go_spec xs [] (by simpa using h)
  have hg : psuGroups ([] : List PyDict) = [] := rfl
  have hf : formatPsuSpec ([] : List PyDict) = [] := rfl
  rw [hg, hf] at hgo
  simpa [format_psu] using hgo

/-- Witness for C2 (amended) at a concrete input with a duplicate reading
type: the two `Current` readings of `PS1` collapse last-write-wins. -/
theorem format_psu_amended_witness :
    format_psu [[("name", JVal.str "PS1 Voltage"), ("type", JVal.str "Voltage"),
        ("reading", JVal.num 12), ("health", JVal.str "OK")],
      [("name", JVal.str "PS1 Current"), ("type", JVal.str "Current"),
        ("reading", JVal.num 1), ("health", JVal.str "OK")],
      [("name", JVal.str "PS1 Current"), ("type", JVal.str "Current"),
        ("reading", JVal.num 2), ("health", JVal.str "Warning")]]
      = .ok [[("name", JVal.str "PS1"),
          ("voltage", .obj [("reading", .num 12), ("health", .str "OK")]),
          ("current", .obj [("reading", .num 2), ("health", .str "Warning")])]] := by
  have h := format_psu_amended
    [[("name", JVal.str "PS1 Voltage"), ("type", JVal.str "Voltage"),
        ("reading", JVal.num 12), ("health", JVal.str "OK")],
      [("name", JVal.str "PS1 Current"), ("type", JVal.str "Current"),
        ("reading", JVal.num 1), ("health", JVal.str "OK")],
      [("name", JVal.str "PS1 Current"), ("type", JVal.str "Current"),
        ("reading", JVal.num 2), ("health", JVal.str "Warning")]] (by decide)
  rw [h]
  rfl

end Claims
